import Mathlib

/-!
Shallow embedding of the Madden league bot core (`madden_bot.py`):
standings ranking, playoff bracket generation, playoff matchup
validation, head-to-head aggregation, regular-season game recording and
season reset.  Python dictionaries are modelled as association lists
(keys unique), Python ints as `Int`/`Nat`, Python float division in
`win_pct` as exact rational division, and Python runtime errors
(IndexError from negative indexing on a too-short list) as `Option`
with `none` for the crash.
-/

namespace MaddenBot

/-- Per-team record stored in `data["players"]` (madden_bot.py, addplayer). -/
structure TeamRecord where
  wins : Nat
  losses : Nat
  points_for : Int
  points_against : Int
deriving DecidableEq, Repr

/-- One entry of the `data["games"]` log (madden_bot.py, game). -/
structure GameRec where
  p1 : String
  s1 : Int
  p2 : String
  s2 : Int
deriving DecidableEq, Repr

/-- Bracket structure built by `generate_playoff_bracket`. -/
structure Bracket where
  play_in : Option (String × String)
  byes : List String
  round1 : List (String × String)
deriving DecidableEq, Repr

/-- One entry of `data["playoffs"]["results"]` (handle_playoff_game). -/
structure PlayoffResult where
  p1 : String
  s1 : Int
  p2 : String
  s2 : Int
  winner : String
deriving DecidableEq, Repr

/-- The `data["playoffs"]` sub-document. -/
structure Playoffs where
  bracket : Option Bracket
  results : List PlayoffResult
deriving DecidableEq, Repr

/-- The whole persisted document (`league.json`). The players dictionary
is an association list whose keys are unique in any state produced by
`addplayer`. -/
structure LeagueData where
  season : Nat
  playoff_mode : Bool
  players : List (String × TeamRecord)
  games : List GameRec
  playoffs : Playoffs
deriving DecidableEq, Repr

/-- Python `win_pct` (madden_bot.py lines 59-63); float division is
modelled as exact rational division. -/
def win_pct (wins losses : Nat) : ℚ :=
  if wins + losses = 0 then 0 else (wins : ℚ) / ((wins : ℚ) + (losses : ℚ))

/-- Python `point_diff` (madden_bot.py lines 65-66). -/
def point_diff (player : TeamRecord) : Int :=
  player.points_for - player.points_against

/-- Python two-element set equality `{p1, p2} == {a, b}`: true exactly
when the unordered pairs coincide (also correct when `p1 = p2` or
`a = b`, where the sets collapse to singletons). -/
def setEq (p1 p2 a b : String) : Bool :=
  (p1 == a && p2 == b) || (p1 == b && p2 == a)

/-- Accumulator of `head_to_head` (madden_bot.py lines 16-57). -/
structure H2H where
  a_wins : Nat
  b_wins : Nat
  ties : Nat
  a_pf : Int
  a_pa : Int
  played : Nat
deriving DecidableEq, Repr

/-- One loop iteration of `head_to_head` over a saved game `g`. -/
def h2hStep (a b : String) (acc : H2H) (g : GameRec) : H2H :=
  if setEq g.p1 g.p2 a b then
    let acc := { acc with played := acc.played + 1 }
    if g.p1 == a && g.p2 == b then
      { acc with
        a_pf := acc.a_pf + g.s1
        a_pa := acc.a_pa + g.s2
        a_wins := if g.s1 > g.s2 then acc.a_wins + 1 else acc.a_wins
        b_wins := if g.s2 > g.s1 then acc.b_wins + 1 else acc.b_wins
        ties := if g.s1 > g.s2 then acc.ties else if g.s2 > g.s1 then acc.ties else acc.ties + 1 }
    else
      { acc with
        a_pf := acc.a_pf + g.s2
        a_pa := acc.a_pa + g.s1
        a_wins := if g.s2 > g.s1 then acc.a_wins + 1 else acc.a_wins
        b_wins := if g.s1 > g.s2 then acc.b_wins + 1 else acc.b_wins
        ties := if g.s2 > g.s1 then acc.ties else if g.s1 > g.s2 then acc.ties else acc.ties + 1 }
  else
    acc

/-- Python `head_to_head(data, team_a, team_b)`: fold of `h2hStep` over
the game log, starting from all-zero accumulators. -/
def head_to_head (games : List GameRec) (a b : String) : H2H :=
  games.foldl (h2hStep a b) ⟨0, 0, 0, 0, 0, 0⟩

/-- Exchange of perspective between the two teams of a head-to-head
aggregate: wins swap, ties and games played stay, points-for and
points-against are exchanged. -/
def swapH2H (h : H2H) : H2H :=
  ⟨h.b_wins, h.a_wins, h.ties, h.a_pa, h.a_pf, h.played⟩

theorem setEq_comm (p1 p2 a b : String) :
    setEq p1 p2 b a = setEq p1 p2 a b := by
  simp only [setEq]
  exact Bool.or_comm _ _

theorem h2hStep_swap {a b : String} (hab : a ≠ b) (acc : H2H) (g : GameRec) :
    h2hStep b a (swapH2H acc) g = swapH2H (h2hStep a b acc g) := by
  unfold h2hStep
  rw [setEq_comm]
  by_cases hse : setEq g.p1 g.p2 a b = true
  · simp only [hse, if_true]
    by_cases h1 : (g.p1 == a && g.p2 == b) = true
    · have hnot : (g.p1 == b && g.p2 == a) = false := by
        have ha : g.p1 = a := eq_of_beq (Bool.and_eq_true_iff.mp h1).1
        rw [ha]
        simp [hab]
      simp only [h1, hnot, if_true, Bool.false_eq_true, if_false]
      simp [swapH2H]
      rcases lt_trichotomy g.s1 g.s2 with h | h | h
      · simp [h, lt_asymm h]
      · simp [h]
      · simp [h, lt_asymm h]
    · have h2 : (g.p1 == b && g.p2 == a) = true := by
        have hor := hse
        simp only [setEq, Bool.or_eq_true] at hor
        rcases hor with h | h
        · exact absurd h h1
        · exact h
      simp only [h1, h2, if_true, Bool.false_eq_true, if_false]
      simp [swapH2H]
      rcases lt_trichotomy g.s1 g.s2 with h | h | h
      · simp [h, lt_asymm h]
      · simp [h]
      · simp [h, lt_asymm h]
  · simp only [Bool.not_eq_true] at hse
    simp [hse]

theorem h2h_foldl_swap {a b : String} (hab : a ≠ b) :
    ∀ (gs : List GameRec) (acc : H2H),
      gs.foldl (h2hStep b a) (swapH2H acc) = swapH2H (gs.foldl (h2hStep a b) acc)
  | [], _ => rfl
  | g :: gs, acc => by
    simp only [List.foldl_cons]
    rw [h2hStep_swap hab, h2h_foldl_swap hab gs]

theorem h2h_foldl_filter (a b : String) :
    ∀ (gs : List GameRec) (acc : H2H),
      gs.foldl (h2hStep a b) acc =
        (gs.filter (fun g => setEq g.p1 g.p2 a b)).foldl (h2hStep a b) acc
  | [], _ => rfl
  | g :: gs, acc => by
    by_cases hse : setEq g.p1 g.p2 a b = true
    · simp only [List.foldl_cons, List.filter_cons, hse, if_true]
      exact h2h_foldl_filter a b gs _
    · simp only [Bool.not_eq_true] at hse
      simp only [List.foldl_cons, List.filter_cons, hse, Bool.false_eq_true, if_false]
      have hid : h2hStep a b acc g = acc := by
        unfold h2hStep
        simp [hse]
      rw [hid]
      exact h2h_foldl_filter a b gs acc

/-- Python `name.lower()` (ASCII case folding), kept as the character
list: Python compares strings lexicographically by code point, which is
exactly the lexicographic order on the character lists. -/
def lowerName (s : String) : List Char :=
  s.data.map Char.toLower

/-- The sort key of `get_seeds` (madden_bot.py lines 117-122):
`(-win_pct, -point_diff, -points_for, name.lower())`. -/
def seedKey (p : String × TeamRecord) : ℚ × Int × Int × List Char :=
  (-(win_pct p.2.wins p.2.losses), -(point_diff p.2), -(p.2.points_for), lowerName p.1)

/-- Lexicographic (non-strict) order on 4-component sort keys, as used
by Python's `sorted` when comparing key tuples. -/
def keyLe (x y : ℚ × Int × Int × List Char) : Prop :=
  x.1 < y.1 ∨ x.1 = y.1 ∧
    (x.2.1 < y.2.1 ∨ x.2.1 = y.2.1 ∧
      (x.2.2.1 < y.2.2.1 ∨ x.2.2.1 = y.2.2.1 ∧ x.2.2.2 ≤ y.2.2.2))

instance : DecidableRel keyLe := fun x y => by
  unfold keyLe
  exact inferInstance

/-- Relation by which `get_seeds` sorts the players. -/
def seedLe (a b : String × TeamRecord) : Prop :=
  keyLe (seedKey a) (seedKey b)

instance : DecidableRel seedLe := fun a b => by
  unfold seedLe
  exact inferInstance

theorem keyLe_total (x y : ℚ × Int × Int × List Char) : keyLe x y ∨ keyLe y x := by
  unfold keyLe
  rcases lt_trichotomy x.1 y.1 with h1 | h1 | h1
  · exact Or.inl (Or.inl h1)
  · rcases lt_trichotomy x.2.1 y.2.1 with h2 | h2 | h2
    · exact Or.inl (Or.inr ⟨h1, Or.inl h2⟩)
    · rcases lt_trichotomy x.2.2.1 y.2.2.1 with h3 | h3 | h3
      · exact Or.inl (Or.inr ⟨h1, Or.inr ⟨h2, Or.inl h3⟩⟩)
      · rcases le_total x.2.2.2 y.2.2.2 with h4 | h4
        · exact Or.inl (Or.inr ⟨h1, Or.inr ⟨h2, Or.inr ⟨h3, h4⟩⟩⟩)
        · exact Or.inr (Or.inr ⟨h1.symm, Or.inr ⟨h2.symm, Or.inr ⟨h3.symm, h4⟩⟩⟩)
      · exact Or.inr (Or.inr ⟨h1.symm, Or.inr ⟨h2.symm, Or.inl h3⟩⟩)
    · exact Or.inr (Or.inr ⟨h1.symm, Or.inl h2⟩)
  · exact Or.inr (Or.inl h1)

theorem keyLe_trans {x y z : ℚ × Int × Int × List Char}
    (hxy : keyLe x y) (hyz : keyLe y z) : keyLe x z := by
  unfold keyLe at *
  rcases hxy with h1 | ⟨e1, h1⟩
  · rcases hyz with h2 | ⟨e2, _⟩
    · exact Or.inl (h1.trans h2)
    · exact Or.inl (e2 ▸ h1)
  · rcases hyz with h2 | ⟨e2, h2⟩
    · exact Or.inl (e1 ▸ h2)
    · refine Or.inr ⟨e1.trans e2, ?_⟩
      rcases h1 with h1 | ⟨f1, h1⟩
      · rcases h2 with h2 | ⟨f2, _⟩
        · exact Or.inl (h1.trans h2)
        · exact Or.inl (f2 ▸ h1)
      · rcases h2 with h2 | ⟨f2, h2⟩
        · exact Or.inl (f1 ▸ h2)
        · refine Or.inr ⟨f1.trans f2, ?_⟩
          rcases h1 with h1 | ⟨g1, h1⟩
          · rcases h2 with h2 | ⟨g2, _⟩
            · exact Or.inl (h1.trans h2)
            · exact Or.inl (g2 ▸ h1)
          · rcases h2 with h2 | ⟨g2, h2⟩
            · exact Or.inl (g1 ▸ h2)
            · exact Or.inr ⟨g1.trans g2, h1.trans h2⟩

/-- Two keys below each other agree on all four components. -/
theorem keyLe_antisymm {x y : ℚ × Int × Int × List Char}
    (hxy : keyLe x y) (hyx : keyLe y x) : x = y := by
  unfold keyLe at hxy hyx
  rcases hxy with h1 | ⟨e1, h1⟩
  · rcases hyx with h1' | ⟨e1', _⟩
    · exact absurd (h1.trans h1') (lt_irrefl _)
    · exact absurd (e1' ▸ h1) (lt_irrefl _)
  · rcases hyx with h1' | ⟨_, h1'⟩
    · exact absurd (e1 ▸ h1') (lt_irrefl _)
    · rcases h1 with h2 | ⟨e2, h2⟩
      · rcases h1' with h2' | ⟨e2', _⟩
        · exact absurd (h2.trans h2') (lt_irrefl _)
        · exact absurd (e2' ▸ h2) (lt_irrefl _)
      · rcases h1' with h2' | ⟨_, h2'⟩
        · exact absurd (e2 ▸ h2') (lt_irrefl _)
        · rcases h2 with h3 | ⟨e3, h3⟩
          · rcases h2' with h3' | ⟨e3', _⟩
            · exact absurd (h3.trans h3') (lt_irrefl _)
            · exact absurd (e3' ▸ h3) (lt_irrefl _)
          · rcases h2' with h3' | ⟨_, h3'⟩
            · exact absurd (e3 ▸ h3') (lt_irrefl _)
            · have h4 := le_antisymm h3 h3'
              obtain ⟨x1, x2, x3, x4⟩ := x
              obtain ⟨y1, y2, y3, y4⟩ := y
              simp_all

instance : IsTotal (String × TeamRecord) seedLe :=
  ⟨fun a b => keyLe_total (seedKey a) (seedKey b)⟩

instance : IsTrans (String × TeamRecord) seedLe :=
  ⟨fun _ _ _ => keyLe_trans⟩

/-- Python `get_seeds` (madden_bot.py lines 114-123): `sorted` with the
4-component key is a stable sort, modelled by `List.insertionSort`
(which is stable and sorts by the same non-strict key order). -/
def get_seeds (players : List (String × TeamRecord)) : List (String × TeamRecord) :=
  players.insertionSort seedLe

theorem get_seeds_sorted (l : List (String × TeamRecord)) :
    (get_seeds l).Sorted seedLe :=
  List.sorted_insertionSort seedLe l

theorem get_seeds_perm (l : List (String × TeamRecord)) :
    (get_seeds l).Perm l :=
  List.perm_insertionSort seedLe l

/-- A sorted permutation is unique as soon as the order is antisymmetric
on the elements involved (the typeclass-free version of
`List.eq_of_perm_of_sorted`). -/
theorem sorted_perm_unique {α : Type} {r : α → α → Prop} :
    ∀ {l₁ l₂ : List α}, l₁.Perm l₂ → l₁.Sorted r → l₂.Sorted r →
      (∀ a ∈ l₁, ∀ b ∈ l₁, r a b → r b a → a = b) → l₁ = l₂ := by
  intro l₁
  induction l₁ with
  | nil =>
    intro l₂ hp _ _ _
    exact hp.nil_eq
  | cons a t ih =>
    intro l₂ hp hs₁ hs₂ hanti
    cases l₂ with
    | nil => exact absurd hp.symm.nil_eq (by simp)
    | cons b t₂ =>
      have hab : a = b := by
        have hbmem : b ∈ a :: t := hp.symm.subset (List.mem_cons_self b t₂)
        have hamem : a ∈ b :: t₂ := hp.subset (List.mem_cons_self a t)
        rcases List.mem_cons.mp hbmem with h | h
        · exact h.symm
        · rcases List.mem_cons.mp hamem with h' | h'
          · exact h'
          · have rab : r a b := List.rel_of_sorted_cons hs₁ b h
            have rba : r b a := List.rel_of_sorted_cons hs₂ a h'
            exact hanti a (List.mem_cons_self a t) b hbmem rab rba
      subst hab
      have hpt : t.Perm t₂ := hp.cons_inv
      have ht := ih hpt (List.sorted_cons.mp hs₁).2 (List.sorted_cons.mp hs₂).2
        (fun x hx y hy => hanti x (List.mem_cons_of_mem a hx) y (List.mem_cons_of_mem a hy))
      rw [ht]

/-- Python `get_seed_map` support: the seed order as a plain name list. -/
def seedNames (players : List (String × TeamRecord)) : List String :=
  (get_seeds players).map Prod.fst

/-- Fuel-indexed body of the `while len(remaining) >= 2` loop of
`generate_playoff_bracket` (madden_bot.py lines 149-152): pop the front
and the back of the remaining list into a round-1 pair.  Each iteration
removes two elements, so `l.length` is always enough fuel; the fuel
only makes the recursion structural. -/
def pairLoopAux : Nat → List String → List (String × String)
  | 0, _ => []
  | _, [] => []
  | _, [_] => []
  | fuel + 1, a :: b :: rest =>
    (a, (b :: rest).getLast (by simp)) :: pairLoopAux fuel ((b :: rest).dropLast)

/-- The `while len(remaining) >= 2` loop of `generate_playoff_bracket`. -/
def pairLoop (l : List String) : List (String × String) :=
  pairLoopAux l.length l

/-- The fuel of `pairLoopAux` is irrelevant as long as it is at least
the list length. -/
theorem pairLoopAux_fuel : ∀ (f₁ f₂ : Nat) (l : List String),
    l.length ≤ f₁ → l.length ≤ f₂ → pairLoopAux f₁ l = pairLoopAux f₂ l
  | 0, f₂, l, h₁, _ => by
    cases l with
    | nil => cases f₂ <;> rfl
    | cons a t => simp at h₁
  | f₁ + 1, 0, l, _, h₂ => by
    cases l with
    | nil => rfl
    | cons a t => simp at h₂
  | f₁ + 1, f₂ + 1, [], _, _ => rfl
  | f₁ + 1, f₂ + 1, [_], _, _ => rfl
  | f₁ + 1, f₂ + 1, a :: b :: rest, h₁, h₂ => by
    simp only [pairLoopAux]
    rw [pairLoopAux_fuel f₁ f₂ ((b :: rest).dropLast)
      (by simp at h₁ ⊢; omega) (by simp at h₂ ⊢; omega)]

/-- Unfolding equation of `pairLoop` on a list with at least two
elements. -/
theorem pairLoop_cons (a b : String) (rest : List String) :
    pairLoop (a :: b :: rest) =
      (a, (b :: rest).getLast (by simp)) :: pairLoop ((b :: rest).dropLast) := by
  show pairLoopAux (rest.length + 2) (a :: b :: rest) = _
  simp only [pairLoopAux]
  rw [pairLoopAux_fuel (rest.length + 1) ((b :: rest).dropLast).length]
  · rfl
  · simp
  · simp

@[simp]
theorem pairLoop_nil : pairLoop [] = [] := rfl

@[simp]
theorem pairLoop_single (a : String) : pairLoop [a] = [] := rfl

/-- All slots of a pair list, in order of appearance. -/
def flatPairs : List (String × String) → List String
  | [] => []
  | p :: ps => p.1 :: p.2 :: flatPairs ps

/-- On an even-length list, the high/low pairing loop uses every element
of the list exactly once: its flattened output is a permutation of the
input. -/
theorem pairLoop_flat_perm : ∀ (l : List String), l.length % 2 = 0 →
    (flatPairs (pairLoop l)).Perm l
  | [], _ => by simp [flatPairs]
  | [_], h => by simp at h
  | a :: b :: rest, h => by
    rw [pairLoop_cons]
    have hne : (b :: rest) ≠ [] := by simp
    have hml : ((b :: rest).dropLast).length % 2 = 0 := by
      simp only [List.length_dropLast, List.length_cons]
      simp only [List.length_cons] at h
      omega
    have ih := pairLoop_flat_perm ((b :: rest).dropLast) hml
    simp only [flatPairs]
    have hstep : (a :: (b :: rest).getLast hne :: flatPairs (pairLoop ((b :: rest).dropLast))).Perm
        (a :: ((b :: rest).dropLast ++ [(b :: rest).getLast hne])) :=
      ((ih.cons _).cons a).trans (((List.perm_append_singleton _ _).symm).cons a)
    rwa [List.dropLast_append_getLast hne] at hstep
termination_by l h => l.length
decreasing_by
  simp
  omega

/-- On an even-length list, the pairing loop makes one pair out of every
two elements. -/
theorem pairLoop_length : ∀ (l : List String), l.length % 2 = 0 →
    (pairLoop l).length = l.length / 2
  | [], _ => by simp
  | [_], h => by simp at h
  | a :: b :: rest, h => by
    rw [pairLoop_cons]
    have hml : ((b :: rest).dropLast).length % 2 = 0 := by
      simp only [List.length_dropLast, List.length_cons]
      simp only [List.length_cons] at h
      omega
    have ih := pairLoop_length ((b :: rest).dropLast) hml
    simp only [List.length_cons, ih, List.length_dropLast]
    omega
termination_by l h => l.length
decreasing_by
  simp
  omega

/-- On an even-length list, the `i`-th pair produced by the pairing loop
is (`i`-th element, `i`-th element from the back): the loop pairs the
current-highest with the current-lowest remaining seed. -/
theorem pairLoop_getElem : ∀ (l : List String), l.length % 2 = 0 →
    ∀ (i : Nat) (x y : String), (pairLoop l)[i]? = some (x, y) →
      l[i]? = some x ∧ l[l.length - 1 - i]? = some y
  | [], _, i, x, y, hxy => by simp [pairLoop, pairLoopAux] at hxy
  | [_], h, _, _, _, _ => by simp at h
  | a :: b :: rest, h, i, x, y, hxy => by
    rw [pairLoop_cons] at hxy
    have hne : (b :: rest) ≠ [] := by simp
    have hml : ((b :: rest).dropLast).length % 2 = 0 := by
      simp only [List.length_dropLast, List.length_cons]
      simp only [List.length_cons] at h
      omega
    have hmlen : ((b :: rest).dropLast).length = rest.length := by simp
    cases i with
    | zero =>
      simp only [List.getElem?_cons_zero, Option.some.injEq, Prod.mk.injEq] at hxy
      obtain ⟨hx, hy⟩ := hxy
      subst hx hy
      refine ⟨rfl, ?_⟩
      have hlen : (a :: b :: rest).length - 1 - 0 = rest.length + 1 := by
        simp
      rw [hlen]
      rw [List.getElem?_cons_succ]
      have : (b :: rest)[rest.length]? = (b :: rest).getLast? := by
        rw [List.getLast?_eq_getElem?]
        simp
      rw [this, List.getLast?_eq_getLast _ hne]
    | succ j =>
      simp only [List.getElem?_cons_succ] at hxy
      obtain ⟨ih1, ih2⟩ := pairLoop_getElem ((b :: rest).dropLast) hml j x y hxy
      have hj : j < ((b :: rest).dropLast).length := by
        rcases List.getElem?_eq_some.mp ih1 with ⟨hlt, _⟩
        exact hlt
      constructor
      · rw [List.getElem?_cons_succ]
        have hsplit : (b :: rest).dropLast ++ [(b :: rest).getLast hne] = b :: rest :=
          List.dropLast_append_getLast hne
        rw [← hsplit, List.getElem?_append_left hj]
        exact ih1
      · have hidx : (a :: b :: rest).length - 1 - (j + 1) = rest.length - j := by
          simp only [List.length_cons]
          omega
        rw [hidx]
        have hjr : j < rest.length := by rwa [hmlen] at hj
        have hstep : rest.length - j = (rest.length - j - 1) + 1 := by omega
        rw [hstep, List.getElem?_cons_succ]
        have hsplit : (b :: rest).dropLast ++ [(b :: rest).getLast hne] = b :: rest :=
          List.dropLast_append_getLast hne
        have hidx2 : rest.length - j - 1 = ((b :: rest).dropLast).length - 1 - j := by
          rw [hmlen]
          omega
        rw [← hsplit, hidx2, List.getElem?_append_left (by rw [hmlen]; omega)]
        exact ih2
termination_by l h i x y hxy => l.length
decreasing_by
  simp
  omega

/-- A name occurring exactly once among the slots of a pair list occurs
in exactly one pair. -/
theorem count_zero_filter (x : String) : ∀ (P : List (String × String)),
    (flatPairs P).count x = 0 →
    (P.filter (fun p => p.1 == x || p.2 == x)).length = 0
  | [], _ => rfl
  | p :: ps, h => by
    simp only [flatPairs, List.count_cons] at h
    have h1 : p.1 ≠ x := by
      intro he
      simp [he] at h
    have h2 : p.2 ≠ x := by
      intro he
      simp [he] at h
    have h3 : (flatPairs ps).count x = 0 := by
      by_contra hne
      simp [h1, h2] at h
      omega
    simp only [List.filter_cons]
    have hcond : (p.1 == x || p.2 == x) = false := by
      simp [h1, h2]
    rw [hcond]
    simp only [Bool.false_eq_true, if_false]
    exact count_zero_filter x ps h3

theorem count_one_filter (x : String) : ∀ (P : List (String × String)),
    (flatPairs P).count x = 1 →
    (P.filter (fun p => p.1 == x || p.2 == x)).length = 1
  | [], h => by simp [flatPairs] at h
  | p :: ps, h => by
    simp only [flatPairs, List.count_cons] at h
    by_cases h1 : p.1 = x
    · by_cases h2 : p.2 = x
      · simp [h1, h2] at h
      · have h3 : (flatPairs ps).count x = 0 := by
          simp [h1, h2] at h
          omega
        simp only [List.filter_cons]
        have hcond : (p.1 == x || p.2 == x) = true := by simp [h1]
        rw [hcond]
        simp only [if_true, List.length_cons]
        rw [count_zero_filter x ps h3]
    · by_cases h2 : p.2 = x
      · have h3 : (flatPairs ps).count x = 0 := by
          simp [h1, h2] at h
          omega
        simp only [List.filter_cons]
        have hcond : (p.1 == x || p.2 == x) = true := by simp [h2]
        rw [hcond]
        simp only [if_true, List.length_cons]
        rw [count_zero_filter x ps h3]
      · have h3 : (flatPairs ps).count x = 1 := by
          simp [h1, h2] at h
          omega
        simp only [List.filter_cons]
        have hcond : (p.1 == x || p.2 == x) = false := by simp [h1, h2]
        rw [hcond]
        simp only [Bool.false_eq_true, if_false]
        exact count_one_filter x ps h3

/-- Python `generate_playoff_bracket` (madden_bot.py lines 130-154).
`remaining[-2]` on a list of fewer than 2 elements raises `IndexError`;
that crash is modelled as `none`. -/
def generate_playoff_bracket (players : List (String × TeamRecord)) : Option Bracket :=
  let teams := seedNames players
  let n := teams.length
  let byes := teams.take 2
  let remaining := teams.drop 2
  if n % 2 = 1 then
    if h : 2 ≤ remaining.length then
      let play_in := (remaining.get ⟨remaining.length - 2, by omega⟩,
                      remaining.get ⟨remaining.length - 1, by omega⟩)
      let remaining2 := remaining.dropLast.dropLast ++ ["Play-In Winner"]
      some { play_in := some play_in, byes := byes, round1 := pairLoop remaining2 }
    else
      none
  else
    some { play_in := none, byes := byes, round1 := pairLoop remaining }

theorem seedNames_length (l : List (String × TeamRecord)) :
    (seedNames l).length = l.length := by
  simp only [seedNames, List.length_map]
  exact (get_seeds_perm l).length_eq

theorem seedNames_perm (l : List (String × TeamRecord)) :
    (seedNames l).Perm (l.map Prod.fst) :=
  (get_seeds_perm l).map Prod.fst

/-- The last two elements of a list of length at least 2. -/
theorem drop_length_sub_two {α : Type} (L : List α) (h : 2 ≤ L.length) :
    L.drop (L.length - 2) =
      [L.get ⟨L.length - 2, by omega⟩, L.get ⟨L.length - 1, by omega⟩] := by
  have h1 : L.length - 2 < L.length := by omega
  rw [List.drop_eq_getElem_cons h1]
  have h2 : L.length - 2 + 1 = L.length - 1 := by omega
  rw [h2]
  have h3 : L.length - 1 < L.length := by omega
  rw [List.drop_eq_getElem_cons h3]
  have h4 : L.length - 1 + 1 = L.length := by omega
  rw [h4, List.drop_length]
  simp [List.get_eq_getElem]

/-- Shape of the bracket for an odd number of teams (at least 5): byes
are the top two seeds, the play-in pair is the last two seeds, and
round 1 is the high/low pairing of the middle seeds with the play-in
placeholder appended. -/
theorem gen_odd_eq (l : List (String × TeamRecord))
    (hodd : l.length % 2 = 1) (h5 : 5 ≤ l.length) :
    generate_playoff_bracket l =
      some { play_in :=
               some (((seedNames l).drop 2).get
                       ⟨((seedNames l).drop 2).length - 2, by
                         simp [seedNames_length]; omega⟩,
                     ((seedNames l).drop 2).get
                       ⟨((seedNames l).drop 2).length - 1, by
                         simp [seedNames_length]; omega⟩),
             byes := (seedNames l).take 2,
             round1 := pairLoop (((seedNames l).drop 2).dropLast.dropLast
                                   ++ ["Play-In Winner"]) } := by
  have hsn : (seedNames l).length = l.length := seedNames_length l
  have hcond : (seedNames l).length % 2 = 1 := by rw [hsn]; exact hodd
  have h2r : 2 ≤ ((seedNames l).drop 2).length := by
    simp only [List.length_drop, hsn]
    omega
  simp only [generate_playoff_bracket]
  rw [if_pos hcond, dif_pos h2r]

/-- Shape of the bracket for an even number of teams: no play-in, byes
are the top two seeds, round 1 is the high/low pairing of the rest. -/
theorem gen_even_eq (l : List (String × TeamRecord))
    (heven : l.length % 2 = 0) :
    generate_playoff_bracket l =
      some { play_in := none,
             byes := (seedNames l).take 2,
             round1 := pairLoop ((seedNames l).drop 2) } := by
  have hsn : (seedNames l).length = l.length := seedNames_length l
  have hcond : ¬((seedNames l).length % 2 = 1) := by rw [hsn]; omega
  simp only [generate_playoff_bracket]
  rw [if_neg hcond]

/-- Error replies sent by the playoff-game handler. -/
inductive PlayoffError
  | uninitializedBracket
  | invalidMatchup
deriving DecidableEq, Repr

/-- The `valid_games` list built in `handle_playoff_game`
(madden_bot.py lines 336-341): the play-in pair when present, followed
by all round-1 pairs. -/
def validGames (br : Bracket) : List (String × String) :=
  (match br.play_in with
   | some pi => [pi]
   | none => []) ++ br.round1

/-- Python `handle_playoff_game` (madden_bot.py lines 330-356).  On an
error path the function returns before `save_data`, so the persisted
state is the unchanged input; modelled as returning the state paired
with an optional error. -/
def handle_playoff_game (data : LeagueData) (p1 : String) (s1 : Int)
    (p2 : String) (s2 : Int) : LeagueData × Option PlayoffError :=
  match data.playoffs.bracket with
  | none => (data, some .uninitializedBracket)
  | some br =>
    if (validGames br).any (fun g => setEq p1 p2 g.1 g.2) then
      let winner := if s1 > s2 then p1 else p2
      ({ data with
          playoffs := { data.playoffs with
            results := data.playoffs.results ++ [⟨p1, s1, p2, s2, winner⟩] } },
       none)
    else
      (data, some .invalidMatchup)

/-- Error replies of the `game` command. -/
inductive GameError
  | unknownTeam
  | playoff (e : PlayoffError)
deriving DecidableEq, Repr

/-- Update the record stored under `name` in the players dictionary
(`data["players"][name]` mutation); keys are unique, so mapping over
all matching entries is the dictionary update. -/
def updatePlayer (ps : List (String × TeamRecord)) (name : String)
    (f : TeamRecord → TeamRecord) : List (String × TeamRecord) :=
  ps.map (fun p => if p.1 = name then (p.1, f p.2) else p)

/-- Python `game` command (madden_bot.py lines 298-328): route to the
playoff handler when `playoff_mode` is set; otherwise require both
players to exist, accumulate points, credit a win to the strictly
higher score (ties fall into the `else` branch: `p2` wins), and append
the game to the log. -/
def game_cmd (data : LeagueData) (p1 : String) (s1 : Int)
    (p2 : String) (s2 : Int) : LeagueData × Option GameError :=
  if data.playoff_mode then
    let r := handle_playoff_game data p1 s1 p2 s2
    (r.1, r.2.map GameError.playoff)
  else if ((data.players.lookup p1).isSome && (data.players.lookup p2).isSome) then
    let players := updatePlayer data.players p1
      (fun r => { r with points_for := r.points_for + s1, points_against := r.points_against + s2 })
    let players := updatePlayer players p2
      (fun r => { r with points_for := r.points_for + s2, points_against := r.points_against + s1 })
    let players :=
      if s1 > s2 then
        updatePlayer (updatePlayer players p1 (fun r => { r with wins := r.wins + 1 }))
          p2 (fun r => { r with losses := r.losses + 1 })
      else
        updatePlayer (updatePlayer players p2 (fun r => { r with wins := r.wins + 1 }))
          p1 (fun r => { r with losses := r.losses + 1 })
    ({ data with players := players, games := data.games ++ [⟨p1, s1, p2, s2⟩] }, none)
  else
    (data, some .unknownTeam)

/-- Error reply of the `resetseason` command core. -/
inductive ResetError
  | playoffActive
deriving DecidableEq, Repr

/-- Python `resetseason` (madden_bot.py lines 393-406), the core after
the authorization check (authorization is an excluded collaborator per
the design): blocked while `playoff_mode` is set, otherwise zero every
record, clear the game log and increment the season counter. -/
def resetseason (data : LeagueData) : LeagueData × Option ResetError :=
  if data.playoff_mode then
    (data, some .playoffActive)
  else
    ({ data with
        players := data.players.map (fun p => (p.1, ⟨0, 0, 0, 0⟩)),
        games := [],
        season := data.season + 1 },
     none)

/-! ## Concrete fixtures used by witnesses and counterexamples -/

/-- A freshly registered team record (all fields zero). -/
def zrec : TeamRecord := ⟨0, 0, 0, 0⟩

/-- A record with zero games and a given points-for total: it orders
teams by the third sort key without invoking rational division. -/
def precOf (pf : Int) : TeamRecord := ⟨0, 0, pf, 0⟩

/-- A playoff-mode state whose bracket has the single round-1 pair
(A, B). -/
def dC1 : LeagueData :=
  { season := 1, playoff_mode := true,
    players := [("A", zrec), ("B", zrec)], games := [],
    playoffs := { bracket := some { play_in := none, byes := [], round1 := [("A", "B")] },
                  results := [] } }

/-! ## C1 -/

/-- C1, counterexample: in the state `dC1`, the report `A 10 B 10` is a
valid playoff matchup with equal scores, and the appended result names
`B` (the second-named team) as winner, not `A` as the claim states. -/
theorem claim1_counterexample :
    (handle_playoff_game dC1 "A" 10 "B" 10).2 = none ∧
    (handle_playoff_game dC1 "A" 10 "B" 10).1.playoffs.results =
      [⟨"A", 10, "B", 10, "B"⟩] ∧
    ("B" : String) ≠ "A" := by
  decide

/-- C1 (amended): for every valid playoff matchup report with equal
scores, the winner of the appended result is the second-named team p2
(`winner = p1 if s1 > s2 else p2` falls through to p2 on a tie). -/
theorem claim1_tie_winner_p2 (data : LeagueData) (p1 p2 : String) (s1 s2 : Int)
    (d' : LeagueData) (hs : s1 = s2)
    (h : handle_playoff_game data p1 s1 p2 s2 = (d', none)) :
    d'.playoffs.results = data.playoffs.results ++ [⟨p1, s1, p2, s2, p2⟩] := by
  unfold handle_playoff_game at h
  cases hbr : data.playoffs.bracket with
  | none =>
    rw [hbr] at h
    simp at h
  | some br =>
    rw [hbr] at h
    dsimp only at h
    by_cases hany : ((validGames br).any fun g => setEq p1 p2 g.1 g.2) = true
    · rw [if_pos hany] at h
      have hfst := congrArg Prod.fst h
      simp only at hfst
      subst hs
      rw [← hfst]
      simp [lt_irrefl]
    · rw [if_neg hany] at h
      simp at h

theorem claim1_witness :
    (handle_playoff_game dC1 "A" 10 "B" 10).1.playoffs.results =
      dC1.playoffs.results ++ [⟨"A", 10, "B", 10, "B"⟩] :=
  claim1_tie_winner_p2 dC1 "A" "B" 10 10
    (handle_playoff_game dC1 "A" 10 "B" 10).1 rfl (by decide)

/-! ## C2 -/

/-- C2: for fewer than 4 teams the bracket builder does not uniformly
return an incomplete bracket: with 1 or 3 teams `remaining[-2]` indexes
a list of fewer than two elements and raises IndexError (modelled as
`none`), while 0 or 2 teams do produce incomplete brackets. -/
theorem claim2_small_league_crash :
    generate_playoff_bracket [("A", zrec)] = none ∧
    generate_playoff_bracket [("A", precOf 2), ("B", precOf 1), ("C", precOf 0)] = none ∧
    generate_playoff_bracket [] = some ⟨none, [], []⟩ ∧
    generate_playoff_bracket [("A", precOf 2), ("B", precOf 1)] =
      some ⟨none, ["A", "B"], []⟩ := by
  decide

/-! ## C6 -/

/-- C6: a playoff report is accepted iff a bracket exists and the
unordered pair {p1, p2} equals the play-in pair (when present) or one of
the round-1 pairs; any rejection (no bracket, or no matching pair)
leaves the persisted state unchanged. -/
theorem claim6_playoff_validation (data : LeagueData) (p1 p2 : String) (s1 s2 : Int) :
    ((handle_playoff_game data p1 s1 p2 s2).2 = none ↔
      ∃ br, data.playoffs.bracket = some br ∧
        ∃ g ∈ validGames br, setEq p1 p2 g.1 g.2 = true) ∧
    ((handle_playoff_game data p1 s1 p2 s2).2 ≠ none →
      (handle_playoff_game data p1 s1 p2 s2).1 = data) := by
  unfold handle_playoff_game
  cases hbr : data.playoffs.bracket with
  | none =>
    exact ⟨by simp, fun _ => rfl⟩
  | some br =>
    dsimp only
    by_cases hany : ((validGames br).any fun g => setEq p1 p2 g.1 g.2) = true
    · rw [if_pos hany]
      constructor
      · constructor
        · intro _
          exact ⟨br, rfl, List.any_eq_true.mp hany⟩
        · intro _
          rfl
      · intro hcon
        exact absurd rfl hcon
    · rw [if_neg hany]
      refine ⟨?_, fun _ => rfl⟩
      constructor
      · intro hcon
        simp at hcon
      · rintro ⟨br', hbr', g, hg, hset⟩
        obtain rfl : br' = br := (Option.some_inj.mp hbr').symm
        exact absurd (List.any_eq_true.mpr ⟨g, hg, hset⟩) hany

theorem claim6_witness :
    (handle_playoff_game dC1 "A" 3 "B" 1).2 = none :=
  (claim6_playoff_validation dC1 "A" "B" 3 1).1.mpr
    ⟨_, rfl, ("A", "B"), by decide, by decide⟩

/-! ## C7 -/

/-- C7: every accepted playoff report appends exactly one result (with
both scores and the computed winner) to the playoff results log and
leaves the players table — hence every team record — unchanged. -/
theorem claim7_playoff_frame (data : LeagueData) (p1 p2 : String) (s1 s2 : Int)
    (d' : LeagueData) (h : handle_playoff_game data p1 s1 p2 s2 = (d', none)) :
    d'.playoffs.results =
      data.playoffs.results ++ [⟨p1, s1, p2, s2, if s1 > s2 then p1 else p2⟩] ∧
    d'.players = data.players := by
  unfold handle_playoff_game at h
  cases hbr : data.playoffs.bracket with
  | none =>
    rw [hbr] at h
    simp at h
  | some br =>
    rw [hbr] at h
    dsimp only at h
    by_cases hany : ((validGames br).any fun g => setEq p1 p2 g.1 g.2) = true
    · rw [if_pos hany] at h
      have hfst := congrArg Prod.fst h
      simp only at hfst
      rw [← hfst]
      exact ⟨rfl, rfl⟩
    · rw [if_neg hany] at h
      simp at h

theorem claim7_witness :
    (handle_playoff_game dC1 "A" 3 "B" 1).1.playoffs.results =
      dC1.playoffs.results ++ [⟨"A", 3, "B", 1, if (3 : Int) > 1 then "A" else "B"⟩] ∧
    (handle_playoff_game dC1 "A" 3 "B" 1).1.players = dC1.players :=
  claim7_playoff_frame dC1 "A" "B" 3 1
    (handle_playoff_game dC1 "A" 3 "B" 1).1 (by decide)

/-! ## C8 -/

/-- C8, counterexample: the claim quantifies over all team identities,
but for `A = B` (with a self-game in the log, which the `game` command
accepts) the aggregate is not swap-symmetric: swapping the arguments is
the identity call, yet wins and points differ across the diagonal. -/
theorem claim8_counterexample :
    head_to_head [⟨"A", 5, "A", 3⟩] "A" "A" ≠
      swapH2H (head_to_head [⟨"A", 5, "A", 3⟩] "A" "A") := by
  decide

/-- C8 (amended): for distinct team identities A ≠ B, exchanging the
arguments swaps the two win counters, keeps ties and games played, and
exchanges points-for with points-against; and the aggregate only counts
games whose unordered participant pair is {A, B}. -/
theorem claim8_h2h_symmetry (games : List GameRec) (a b : String) (hab : a ≠ b) :
    head_to_head games b a = swapH2H (head_to_head games a b) ∧
    head_to_head games a b =
      head_to_head (games.filter (fun g => setEq g.p1 g.p2 a b)) a b := by
  constructor
  · exact h2h_foldl_swap hab games ⟨0, 0, 0, 0, 0, 0⟩
  · exact h2h_foldl_filter a b games ⟨0, 0, 0, 0, 0, 0⟩

theorem claim8_witness :
    head_to_head [⟨"A", 7, "B", 3⟩] "B" "A" =
      swapH2H (head_to_head [⟨"A", 7, "B", 3⟩] "A" "B") ∧
    head_to_head [⟨"A", 7, "B", 3⟩] "A" "B" =
      head_to_head ([⟨"A", 7, "B", 3⟩].filter (fun g => setEq g.p1 g.p2 "A" "B")) "A" "B" :=
  claim8_h2h_symmetry [⟨"A", 7, "B", 3⟩] "A" "B" (by decide)

/-! ## C9 -/

/-- C9: season reset during playoff mode is rejected with the state
unchanged; otherwise every team record is zeroed (names and order kept),
the game log is emptied and the season counter is incremented. -/
theorem claim9_resetseason (data : LeagueData) :
    (data.playoff_mode = true →
      resetseason data = (data, some ResetError.playoffActive)) ∧
    (data.playoff_mode = false →
      (resetseason data).2 = none ∧
      (resetseason data).1.players = data.players.map (fun p => (p.1, ⟨0, 0, 0, 0⟩)) ∧
      (resetseason data).1.games = [] ∧
      (resetseason data).1.season = data.season + 1 ∧
      (resetseason data).1.playoffs = data.playoffs) := by
  unfold resetseason
  constructor
  · intro h
    rw [if_pos h]
  · intro h
    rw [if_neg (by simp [h])]
    exact ⟨rfl, rfl, rfl, rfl, rfl⟩

/-- A mid-season state with nonzero stats for the reset witness. -/
def dC9 : LeagueData :=
  { season := 1, playoff_mode := false,
    players := [("A", ⟨2, 0, 50, 20⟩), ("B", ⟨0, 2, 20, 50⟩)],
    games := [⟨"A", 30, "B", 10⟩, ⟨"A", 20, "B", 10⟩],
    playoffs := { bracket := none, results := [] } }

theorem claim9_witness :
    (resetseason dC9).2 = none ∧
    (resetseason dC9).1.players = [("A", zrec), ("B", zrec)] ∧
    (resetseason dC9).1.games = [] ∧
    (resetseason dC9).1.season = 2 := by
  have h := (claim9_resetseason dC9).2 rfl
  refine ⟨h.1, ?_, h.2.2.1, ?_⟩
  · rw [h.2.1]
    decide
  · rw [h.2.2.2.1]
    rfl

/-! ## C10 -/

/-- Lookup after a dictionary update: the value under the updated key is
mapped through `f`, every other key is untouched. -/
theorem lookup_updatePlayer (ps : List (String × TeamRecord)) (name q : String)
    (f : TeamRecord → TeamRecord) :
    (updatePlayer ps name f).lookup q =
      if q = name then (ps.lookup q).map f else ps.lookup q := by
  induction ps with
  | nil =>
    simp only [updatePlayer, List.map_nil, List.lookup_nil]
    split <;> rfl
  | cons p ps ih =>
    obtain ⟨k, v⟩ := p
    simp only [updatePlayer, List.map_cons] at ih ⊢
    by_cases hkn : k = name
    · rw [if_pos (show ((k, v) : String × TeamRecord).1 = name from hkn)]
      rw [List.lookup_cons, List.lookup_cons]
      by_cases hqk : q = k
      · rw [beq_iff_eq.mpr hqk]
        simp only [if_true]
        rw [if_pos (hqk.trans hkn)]
        rfl
      · rw [beq_eq_false_iff_ne.mpr hqk]
        simp only [Bool.false_eq_true, if_false]
        exact ih
    · rw [if_neg (show ¬((k, v) : String × TeamRecord).1 = name from hkn)]
      rw [List.lookup_cons, List.lookup_cons]
      by_cases hqk : q = k
      · rw [beq_iff_eq.mpr hqk]
        simp only [if_true]
        rw [if_neg (fun h => hkn (hqk.symm.trans h))]
      · rw [beq_eq_false_iff_ne.mpr hqk]
        simp only [Bool.false_eq_true, if_false]
        exact ih

/-- C10: a regular-season report with both teams registered and equal
scores (s1 = s2 = s) credits the second-named team p2 with a win and the
first-named team p1 with a loss; neither record gains any other win or
loss (there is no tie field at all), and both accumulate the points. -/
theorem claim10_tie_regular (data : LeagueData) (p1 p2 : String) (s : Int)
    (r1 r2 : TeamRecord)
    (hmode : data.playoff_mode = false)
    (hne : p1 ≠ p2)
    (h1 : data.players.lookup p1 = some r1)
    (h2 : data.players.lookup p2 = some r2) :
    (game_cmd data p1 s p2 s).2 = none ∧
    (game_cmd data p1 s p2 s).1.players.lookup p1 =
      some ⟨r1.wins, r1.losses + 1, r1.points_for + s, r1.points_against + s⟩ ∧
    (game_cmd data p1 s p2 s).1.players.lookup p2 =
      some ⟨r2.wins + 1, r2.losses, r2.points_for + s, r2.points_against + s⟩ := by
  unfold game_cmd
  rw [hmode]
  simp only [Bool.false_eq_true, if_false]
  have hcond : ((data.players.lookup p1).isSome && (data.players.lookup p2).isSome) = true := by
    rw [h1, h2]
    rfl
  rw [if_pos hcond]
  dsimp only
  rw [if_neg (lt_irrefl s)]
  refine ⟨rfl, ?_, ?_⟩
  · simp [lookup_updatePlayer, hne, Ne.symm hne, h1]
  · simp [lookup_updatePlayer, hne, Ne.symm hne, h2]

/-- A two-team regular-season state for the tie witness. -/
def dC10 : LeagueData :=
  { season := 1, playoff_mode := false,
    players := [("A", zrec), ("B", zrec)], games := [],
    playoffs := { bracket := none, results := [] } }

theorem claim10_witness :
    (game_cmd dC10 "A" 7 "B" 7).2 = none ∧
    (game_cmd dC10 "A" 7 "B" 7).1.players.lookup "A" = some ⟨0, 1, 7, 7⟩ ∧
    (game_cmd dC10 "A" 7 "B" 7).1.players.lookup "B" = some ⟨1, 0, 7, 7⟩ := by
  have h := claim10_tie_regular dC10 "A" "B" 7 zrec zrec rfl
    (by decide) (by decide) (by decide)
  simpa using h

/-! ## C3 -/

/-- C3, counterexample: two registered teams whose names differ only by
letter case ("A" and "a") with identical records have identical sort
keys, so the stable sort keeps their relative input order and reversing
the input iteration order changes the output; in particular the
comparator is not a total order over all inputs. -/
theorem claim3_counterexample :
    get_seeds [("A", zrec), ("a", zrec)] ≠
      get_seeds (List.reverse [("A", zrec), ("a", zrec)]) := by
  decide

/-- C3 (amended): the seeding output is always sorted by the 4-key
comparator (descending win percentage, then descending point
differential, then descending points-for, then case-folded name
ascending) and is a permutation of the input; when the team identities
are pairwise distinct after case folding, the comparator is
antisymmetric on them and reversing the input iteration order yields
the same output. -/
theorem claim3_seeding_order (l : List (String × TeamRecord))
    (hci : (l.map (fun p => lowerName p.1)).Nodup) :
    (get_seeds l).Sorted seedLe ∧ (get_seeds l).Perm l ∧
      get_seeds l.reverse = get_seeds l := by
  refine ⟨get_seeds_sorted l, get_seeds_perm l, ?_⟩
  have hperm : (get_seeds l.reverse).Perm (get_seeds l) :=
    ((get_seeds_perm l.reverse).trans l.reverse_perm).trans (get_seeds_perm l).symm
  refine sorted_perm_unique hperm (get_seeds_sorted l.reverse) (get_seeds_sorted l) ?_
  intro a ha b hb rab rba
  have hk : seedKey a = seedKey b := keyLe_antisymm rab rba
  have h4 : lowerName a.1 = lowerName b.1 := congrArg (fun k => k.2.2.2) hk
  have ha' : a ∈ l := l.reverse_perm.subset ((get_seeds_perm l.reverse).subset ha)
  have hb' : b ∈ l := l.reverse_perm.subset ((get_seeds_perm l.reverse).subset hb)
  exact List.inj_on_of_nodup_map hci ha' hb' h4

theorem claim3_witness :
    (get_seeds [("A", precOf 1), ("B", precOf 2)]).Sorted seedLe ∧
    (get_seeds [("A", precOf 1), ("B", precOf 2)]).Perm
      [("A", precOf 1), ("B", precOf 2)] ∧
    get_seeds (List.reverse [("A", precOf 1), ("B", precOf 2)]) =
      get_seeds [("A", precOf 1), ("B", precOf 2)] :=
  claim3_seeding_order [("A", precOf 1), ("B", precOf 2)] (by decide)

/-! ## C4 -/

/-- Seven teams, one of which is itself named "Play-In Winner" and is
ranked 4th by points. -/
def exC4 : List (String × TeamRecord) :=
  [("T1", precOf 70), ("T2", precOf 60), ("T3", precOf 50),
   ("Play-In Winner", precOf 40), ("T5", precOf 30), ("T6", precOf 20),
   ("T7", precOf 10)]

/-- C4, counterexample: with 7 teams (odd, at least 5) one of which is
itself named "Play-In Winner", the placeholder string occurs in two
distinct round-1 pairs, not in exactly one. -/
theorem claim4_counterexample :
    exC4.length = 7 ∧
    (generate_playoff_bracket exC4).map
        (fun br => (br.round1.filter
          (fun p => p.1 == "Play-In Winner" || p.2 == "Play-In Winner")).length) =
      some 2 := by
  decide

/-- C4 (amended): for every league of odd size at least 5 in which no
registered team is named "Play-In Winner", the bracket exists, its byes
are the top two seeds, its play-in pair is exactly the two lowest seeds,
and the "Play-In Winner" placeholder occupies exactly one slot of
exactly one round-1 pair. -/
theorem claim4_odd_bracket (l : List (String × TeamRecord))
    (hodd : l.length % 2 = 1) (h5 : 5 ≤ l.length)
    (hno : "Play-In Winner" ∉ l.map Prod.fst) :
    ∃ br, generate_playoff_bracket l = some br ∧
      br.byes = (seedNames l).take 2 ∧
      (∃ a b, (seedNames l).drop (l.length - 2) = [a, b] ∧ br.play_in = some (a, b)) ∧
      (flatPairs br.round1).count "Play-In Winner" = 1 ∧
      (br.round1.filter
        (fun p => p.1 == "Play-In Winner" || p.2 == "Play-In Winner")).length = 1 := by
  have hsn : (seedNames l).length = l.length := seedNames_length l
  have h2r : 2 ≤ ((seedNames l).drop 2).length := by
    simp only [List.length_drop, hsn]
    omega
  have hnosn : "Play-In Winner" ∉ seedNames l := fun hmem =>
    hno ((seedNames_perm l).subset hmem)
  have heven : (((seedNames l).drop 2).dropLast.dropLast ++ ["Play-In Winner"]).length % 2
      = 0 := by
    simp only [List.length_append, List.length_dropLast, List.length_drop, hsn,
      List.length_cons, List.length_nil]
    omega
  have hcount : ((((seedNames l).drop 2).dropLast.dropLast
      ++ ["Play-In Winner"])).count "Play-In Winner" = 1 := by
    rw [List.count_append]
    have hz : (((seedNames l).drop 2).dropLast.dropLast).count "Play-In Winner" = 0 := by
      rw [List.count_eq_zero]
      intro hmem
      exact hnosn (List.drop_subset 2 _ (List.dropLast_subset _ (List.dropLast_subset _ hmem)))
    rw [hz]
    simp
  have hflat : (flatPairs (pairLoop (((seedNames l).drop 2).dropLast.dropLast
      ++ ["Play-In Winner"]))).count "Play-In Winner" = 1 := by
    rw [(pairLoop_flat_perm _ heven).count_eq]
    exact hcount
  refine ⟨_, gen_odd_eq l hodd h5, rfl, ?_, hflat, count_one_filter _ _ hflat⟩
  refine ⟨_, _, ?_, rfl⟩
  have hdd : ((seedNames l).drop 2).drop (((seedNames l).drop 2).length - 2) =
      (seedNames l).drop (l.length - 2) := by
    rw [List.drop_drop]
    congr 1
    simp only [List.length_drop, hsn]
    omega
  rw [← hdd]
  exact drop_length_sub_two _ h2r

/-- Five teams ranked by points, for the bracket witness. -/
def wC4 : List (String × TeamRecord) :=
  [("T1", precOf 50), ("T2", precOf 40), ("T3", precOf 30),
   ("T4", precOf 20), ("T5", precOf 10)]

theorem claim4_witness :
    ∃ br, generate_playoff_bracket wC4 = some br ∧
      br.byes = (seedNames wC4).take 2 ∧
      (∃ a b, (seedNames wC4).drop (wC4.length - 2) = [a, b] ∧ br.play_in = some (a, b)) ∧
      (flatPairs br.round1).count "Play-In Winner" = 1 ∧
      (br.round1.filter
        (fun p => p.1 == "Play-In Winner" || p.2 == "Play-In Winner")).length = 1 :=
  claim4_odd_bracket wC4 (by decide) (by decide) (by decide)

/-! ## C5 -/

/-- C5: for every league of even size at least 4 (with the distinct team
names a mapping guarantees), the bracket exists, has no play-in pair,
byes are the top two seeds, round 1 consists of (n − 2) / 2 pairs, every
one of the n − 2 non-bye seeds occurs in exactly one round-1 pair, and
the i-th pair matches the i-th highest remaining seed against the i-th
lowest remaining seed. -/
theorem claim5_even_bracket (l : List (String × TeamRecord))
    (hnodup : (l.map Prod.fst).Nodup)
    (heven : l.length % 2 = 0) (h4 : 4 ≤ l.length) :
    ∃ br, generate_playoff_bracket l = some br ∧
      br.play_in = none ∧
      br.byes = (seedNames l).take 2 ∧
      br.round1.length = (l.length - 2) / 2 ∧
      (∀ t ∈ (seedNames l).drop 2,
        (br.round1.filter (fun p => p.1 == t || p.2 == t)).length = 1) ∧
      (∀ (i : Nat) (x y : String), br.round1[i]? = some (x, y) →
        ((seedNames l).drop 2)[i]? = some x ∧
        ((seedNames l).drop 2)[(l.length - 2) - 1 - i]? = some y) := by
  have hsn : (seedNames l).length = l.length := seedNames_length l
  have hR : ((seedNames l).drop 2).length = l.length - 2 := by
    simp only [List.length_drop, hsn]
  have hReven : ((seedNames l).drop 2).length % 2 = 0 := by
    rw [hR]
    omega
  have hsnnodup : (seedNames l).Nodup := ((seedNames_perm l).nodup_iff).mpr hnodup
  have hRnodup : ((seedNames l).drop 2).Nodup :=
    hsnnodup.sublist (List.drop_sublist 2 _)
  refine ⟨_, gen_even_eq l heven, rfl, rfl, ?_, ?_, ?_⟩
  · rw [pairLoop_length _ hReven, hR]
  · intro t ht
    have hcount : ((seedNames l).drop 2).count t = 1 :=
      List.count_eq_one_of_mem hRnodup ht
    have hflat : (flatPairs (pairLoop ((seedNames l).drop 2))).count t = 1 := by
      rw [(pairLoop_flat_perm _ hReven).count_eq]
      exact hcount
    exact count_one_filter _ _ hflat
  · intro i x y hxy
    have h := pairLoop_getElem _ hReven i x y hxy
    rw [hR] at h
    exact h

/-- Four teams ranked by points, for the even-bracket witness. -/
def wC5 : List (String × TeamRecord) :=
  [("T1", precOf 40), ("T2", precOf 30), ("T3", precOf 20), ("T4", precOf 10)]

theorem claim5_witness :
    ∃ br, generate_playoff_bracket wC5 = some br ∧
      br.play_in = none ∧
      br.byes = (seedNames wC5).take 2 ∧
      br.round1.length = (wC5.length - 2) / 2 ∧
      (∀ t ∈ (seedNames wC5).drop 2,
        (br.round1.filter (fun p => p.1 == t || p.2 == t)).length = 1) ∧
      (∀ (i : Nat) (x y : String), br.round1[i]? = some (x, y) →
        ((seedNames wC5).drop 2)[i]? = some x ∧
        ((seedNames wC5).drop 2)[(wC5.length - 2) - 1 - i]? = some y) :=
  claim5_even_bracket wC5 (by decide) (by decide) (by decide)

end MaddenBot
